import Mathlib

/-!
Shallow embedding of `go-controller/pkg/kube/annotator.go`: the three
annotator variants (node, pod, namespace) that batch pending annotation
changes and flush them to the object store with a single call in `Run`.

Go `interface{}` values reaching `Set`/`SetWithFailureHandler` are modelled
by `GoVal`; Go maps (`map[string]interface{}`, `map[string]*action`,
`map[string]string`) by association lists with overwrite-on-update
semantics (`updA`/`lookA`); the external store and JSON marshalling are
modelled by parameters (`storeErr`, the `marshal` field of `GoVal.goOther`).
`Run` returns a record of the store calls it made, the failure handlers it
invoked, its return value, and the (unchanged) pending-changes map.
-/

namespace Annot

/-- A Go `interface{}` value at the `Set` call boundary.
`goString` is a value whose dynamic type is exactly the built-in `string`;
`goNamedString` has `reflect.Kind() == reflect.String` but a distinct
dynamic type (a named string type), so `val.(string)` panics on it;
`goOther` is any non-string-kinded value, carrying the result of
`json.Marshal` (`none` when marshalling fails). -/
inductive GoVal where
  | goNil
  | goString (s : String)
  | goNamedString (tyName : String) (s : String)
  | goOther (marshal : Option String)
  deriving DecidableEq

/-- Result of the shared string-coercion block of `SetWithFailureHandler`
(lines 61-71 / 136-146 / 207-218 of annotator.go), run on a non-nil value. -/
inductive CoerceResult where
  | coerced (s : String)
  | marshalErr
  | panicked
  deriving DecidableEq

/-- `if reflect.TypeOf(val).Kind() == reflect.String { val.(string) } else
{ json.Marshal(val) }` for a non-nil `val`.  A named string type passes the
kind test and then panics on the type assertion.  (The `goNil` branch is
unreachable: every caller handles nil first.) -/
def coerceNonNil : GoVal → CoerceResult
  | .goString s => .coerced s
  | .goNamedString _ _ => .panicked
  | .goNil => .coerced "null"
  | .goOther m =>
    match m with
    | some s => .coerced s
    | none => .marshalErr

/-- Association-list lookup: the model of Go map indexing `m[k]`. -/
def lookA {α : Type} : List (String × α) → String → Option α
  | [], _ => none
  | (k2, v) :: rest, k => if k2 = k then some v else lookA rest k

/-- Association-list update: the model of Go map assignment `m[k] = v`
(overwrite the existing entry for `k`, or append a new one). -/
def updA {α : Type} : List (String × α) → String → α → List (String × α)
  | [], k, v => [(k, v)]
  | (k2, v2) :: rest, k, v =>
    if k2 = k then (k, v) :: rest else (k2, v2) :: updA rest k v

/-- Every key occurs at most once (the invariant of any list built from
`[]` by `updA`, matching a Go map's key uniqueness). -/
def noDupKeys {α : Type} : List (String × α) → Bool
  | [] => true
  | (k, _) :: rest => (lookA rest k).isNone && noDupKeys rest

/-- Return status of `Set`/`SetWithFailureHandler`: a nil error, a non-nil
(marshal) error, or a runtime panic from the `val.(string)` assertion. -/
inductive SetRet where
  | retNil
  | retErr
  | panicked
  deriving DecidableEq

/-- The cached `*kapi.Namespace` held by the namespace annotator: its name
and its currently observed annotation map. -/
structure NsObject where
  name : String
  annotations : List (String × String)
  deriving DecidableEq

/-- One call made against the store client (`Interface`). -/
inductive StoreCall where
  | onNode (nodeName : String) (m : List (String × Option String))
  | onPod (namespaceName podName : String) (m : List (String × Option String))
  | onNamespace (namespaceName : String) (m : List (String × String))
  deriving DecidableEq

/-- One invocation of a registered `FailureHandlerFn`, with the arguments
it receives: `failFn(obj, key, origVal)`.  Handlers are identified by a
natural number. -/
structure HandlerEvent where
  handler : Nat
  obj : NsObject
  key : String
  origVal : GoVal
  deriving DecidableEq

/-- Everything observable about one `Run` call: the store calls it issued,
the failure handlers it invoked, its returned error (`none` = nil), and
the pending-changes state after it returns. -/
structure RunResult (σ : Type) where
  storeCalls : List StoreCall
  handlerCalls : List HandlerEvent
  ret : Option String
  post : σ
  deriving DecidableEq

/-! ## Node annotator (`nodeAnnotator`, lines 31-102)

`changes : map[string]interface{}` holds `nil` (modelled `none`) for a
deletion and a `string` (modelled `some s`) for a set value. -/

/-- `nodeAnnotator.SetWithFailureHandler` (lines 52-74).  The `failFn`
argument is accepted but never stored: the node variant's `changes` map
only keeps the coerced value. -/
def nodeSetWithFailureHandler (changes : List (String × Option String)) (key : String)
    (val : GoVal) (_failFn : Option Nat) : SetRet × List (String × Option String) :=
  match val with
  | .goNil => (.retNil, updA changes key none)
  | v =>
    match coerceNonNil v with
    | .coerced s => (.retNil, updA changes key (some s))
    | .marshalErr => (.retErr, changes)
    | .panicked => (.panicked, changes)

/-- `nodeAnnotator.Set` (lines 48-50). -/
def nodeSet (changes : List (String × Option String)) (key : String) (val : GoVal) :
    SetRet × List (String × Option String) :=
  nodeSetWithFailureHandler changes key val none

/-- `nodeAnnotator.Delete` (lines 76-80): `na.changes[key] = nil`. -/
def nodeDelete (changes : List (String × Option String)) (key : String) :
    List (String × Option String) :=
  updA changes key none

/-- `nodeAnnotator.Run` (lines 82-102).  `storeErr` is the error the store
client returns for the call `Run` would make (`none` = success); the
failure-handler block is commented out in the source, so no handler is
ever invoked. -/
def nodeRun (nodeName : String) (changes : List (String × Option String))
    (storeErr : Option String) : RunResult (List (String × Option String)) :=
  if changes = [] then ⟨[], [], none, changes⟩
  else ⟨[.onNode nodeName changes], [], storeErr, changes⟩

/-! ## Pod annotator (`podAnnotator`, lines 104-178) — a verbatim duplicate
of the node variant targeting `SetAnnotationsOnPod`. -/

/-- `podAnnotator.SetWithFailureHandler` (lines 127-149). -/
def podSetWithFailureHandler (changes : List (String × Option String)) (key : String)
    (val : GoVal) (_failFn : Option Nat) : SetRet × List (String × Option String) :=
  match val with
  | .goNil => (.retNil, updA changes key none)
  | v =>
    match coerceNonNil v with
    | .coerced s => (.retNil, updA changes key (some s))
    | .marshalErr => (.retErr, changes)
    | .panicked => (.panicked, changes)

/-- `podAnnotator.Set` (lines 123-125). -/
def podSet (changes : List (String × Option String)) (key : String) (val : GoVal) :
    SetRet × List (String × Option String) :=
  podSetWithFailureHandler changes key val none

/-- `podAnnotator.Delete` (lines 151-155). -/
def podDelete (changes : List (String × Option String)) (key : String) :
    List (String × Option String) :=
  updA changes key none

/-- `podAnnotator.Run` (lines 157-178): like the node variant, the
failure-handler block is commented out. -/
def podRun (namespaceName podName : String) (changes : List (String × Option String))
    (storeErr : Option String) : RunResult (List (String × Option String)) :=
  if changes = [] then ⟨[], [], none, changes⟩
  else ⟨[.onPod namespaceName podName changes], [], storeErr, changes⟩

/-! ## Namespace annotator (`namespaceAnnotator`, lines 180-262) -/

/-- The `action` struct (lines 24-29).  `val` is the coerced string (Go
zero value `""` for a deletion), `origVal` the original `interface{}`
argument (`goNil` for a deletion), `failFn` the registered handler. -/
structure Action where
  key : String
  val : String
  origVal : GoVal
  failFn : Option Nat
  deriving DecidableEq

/-- `namespaceAnnotator.SetWithFailureHandler` (lines 201-224): builds the
`action`, coercing a non-nil value to string; on marshal failure it
returns before `na.changes[key] = act`, leaving the map unchanged. -/
def nsSetWithFailureHandler (changes : List (String × Action)) (key : String)
    (val : GoVal) (failFn : Option Nat) : SetRet × List (String × Action) :=
  match val with
  | .goNil => (.retNil, updA changes key ⟨key, "", .goNil, failFn⟩)
  | v =>
    match coerceNonNil v with
    | .coerced s => (.retNil, updA changes key ⟨key, s, v, failFn⟩)
    | .marshalErr => (.retErr, changes)
    | .panicked => (.panicked, changes)

/-- `namespaceAnnotator.Set` (lines 197-199). -/
def nsSet (changes : List (String × Action)) (key : String) (val : GoVal) :
    SetRet × List (String × Action) :=
  nsSetWithFailureHandler changes key val none

/-- `namespaceAnnotator.Delete` (lines 226-230): `na.changes[key] =
&action{key: key}` (all other fields at their zero values). -/
def nsDelete (changes : List (String × Action)) (key : String) : List (String × Action) :=
  updA changes key ⟨key, "", .goNil, none⟩

/-- The send test of `namespaceAnnotator.Run` (line 238):
`existing, ok := na.namespace.Annotations[k]; existing != act.val || !ok`.
When the key is absent, `existing` is the zero value `""` and `!ok` makes
the disjunction true regardless. -/
def sendP (cached : List (String × String)) (k : String) (act : Action) : Bool :=
  match lookA cached k with
  | some existing => existing != act.val
  | none => true

/-- The value `Run` puts in the outgoing map for one action (lines
239-245): `act.val` when `act.origVal != nil`, else `""` (deletion). -/
def outVal (act : Action) : String :=
  if act.origVal ≠ GoVal.goNil then act.val else ""

/-- The outgoing `annotations` map built by `namespaceAnnotator.Run`
(lines 233-247): every pending change passing the send test, with
deletions mapped to `""`. -/
def nsOutgoing (cached : List (String × String)) (changes : List (String × Action)) :
    List (String × String) :=
  changes.filterMap fun p =>
    if sendP cached p.1 p.2 then some (p.1, outVal p.2) else none

/-- The failure-handler invocations of `namespaceAnnotator.Run` (lines
253-260): every pending change (sent or omitted) with a non-nil `failFn`,
called as `act.failFn(na.namespace, act.key, act.origVal)`. -/
def nsFailureEvents (ns : NsObject) (changes : List (String × Action)) : List HandlerEvent :=
  changes.filterMap fun p => p.2.failFn.map fun f => ⟨f, ns, p.2.key, p.2.origVal⟩

/-- `namespaceAnnotator.Run` (lines 232-262). -/
def nsRun (ns : NsObject) (changes : List (String × Action)) (storeErr : Option String) :
    RunResult (List (String × Action)) :=
  let outgoing := nsOutgoing ns.annotations changes
  if outgoing = [] then ⟨[], [], none, changes⟩
  else
    ⟨[.onNamespace ns.name outgoing],
     (match storeErr with
      | some _ => nsFailureEvents ns changes
      | none => []),
     storeErr,
     changes⟩

/-! ## Operation sequences

A caller-visible operation on one annotator instance, and the execution of
a finite sequence of them (error-returning `Set` calls leave the map
unchanged, exactly as the source does). -/

/-- One `Set`/`SetWithFailureHandler`/`Delete` call. -/
inductive Op where
  | set (key : String) (val : GoVal)
  | setWithFH (key : String) (val : GoVal) (failFn : Nat)
  | delete (key : String)
  deriving DecidableEq

def opKey : Op → String
  | .set k _ => k
  | .setWithFH k _ _ => k
  | .delete k => k

def opVal : Op → GoVal
  | .set _ v => v
  | .setWithFH _ v _ => v
  | .delete _ => .goNil

def opFailFn : Op → Option Nat
  | .set _ _ => none
  | .setWithFH _ _ f => some f
  | .delete _ => none

/-- A value the coercion block handles without error or panic: nil, an
exact string, or a marshallable non-string value. -/
def valOk : GoVal → Bool
  | .goNil => true
  | .goString _ => true
  | .goNamedString _ _ => false
  | .goOther m => m.isSome

def opsOk (ops : List Op) : Bool :=
  ops.all fun o => valOk (opVal o)

/-- The `changes` entry a successful operation records in the node/pod
variants: `none` (nil) for a deletion, the coerced string otherwise. -/
def recVal (o : Op) : Option String :=
  match opVal o with
  | .goNil => none
  | v =>
    match coerceNonNil v with
    | .coerced s => some s
    | _ => none

/-- The `action` a successful operation records in the namespace variant. -/
def recAct (o : Op) : Action :=
  match opVal o with
  | .goNil => ⟨opKey o, "", .goNil, opFailFn o⟩
  | v =>
    match coerceNonNil v with
    | .coerced s => ⟨opKey o, s, v, opFailFn o⟩
    | _ => ⟨opKey o, "", .goNil, opFailFn o⟩

/-- The last operation of `ops` whose key is `k`, if any. -/
def lastOn (ops : List Op) (k : String) : Option Op :=
  match ops with
  | [] => none
  | o :: rest =>
    match lastOn rest k with
    | some o2 => some o2
    | none => if opKey o = k then some o else none

def nodeStep (changes : List (String × Option String)) : Op → List (String × Option String)
  | .set k v => (nodeSet changes k v).2
  | .setWithFH k v f => (nodeSetWithFailureHandler changes k v (some f)).2
  | .delete k => nodeDelete changes k

def nodeExec (changes : List (String × Option String)) (ops : List Op) :
    List (String × Option String) :=
  ops.foldl nodeStep changes

def podStep (changes : List (String × Option String)) : Op → List (String × Option String)
  | .set k v => (podSet changes k v).2
  | .setWithFH k v f => (podSetWithFailureHandler changes k v (some f)).2
  | .delete k => podDelete changes k

def podExec (changes : List (String × Option String)) (ops : List Op) :
    List (String × Option String) :=
  ops.foldl podStep changes

def nsStep (changes : List (String × Action)) : Op → List (String × Action)
  | .set k v => (nsSet changes k v).2
  | .setWithFH k v f => (nsSetWithFailureHandler changes k v (some f)).2
  | .delete k => nsDelete changes k

def nsExec (changes : List (String × Action)) (ops : List Op) : List (String × Action) :=
  ops.foldl nsStep changes

/-! ## Helper lemmas -/

theorem lookA_updA {α : Type} (m : List (String × α)) (k k' : String) (v : α) :
    lookA (updA m k v) k' = if k = k' then some v else lookA m k' := by
  induction m with
  | nil => simp [updA, lookA]
  | cons p rest ih =>
    obtain ⟨k2, v2⟩ := p
    by_cases h2 : k2 = k
    · subst h2
      by_cases h3 : k2 = k' <;> simp [updA, lookA, h3]
    · simp only [updA, if_neg h2, lookA]
      by_cases h3 : k2 = k'
      · subst h3
        simp [lookA, Ne.symm h2, ih]
      · simp [lookA, h3, ih]

theorem noDupKeys_updA {α : Type} (m : List (String × α)) (k : String) (v : α)
    (h : noDupKeys m = true) : noDupKeys (updA m k v) = true := by
  induction m with
  | nil => simp [updA, noDupKeys, lookA]
  | cons p rest ih =>
    obtain ⟨k2, v2⟩ := p
    simp only [noDupKeys, Bool.and_eq_true] at h
    by_cases h2 : k2 = k
    · subst h2
      simpa [updA, noDupKeys] using h
    · simp only [updA, if_neg h2, noDupKeys, Bool.and_eq_true]
      refine ⟨?_, ih h.2⟩
      rw [lookA_updA]
      have hk : ¬(k = k2) := fun hk => h2 hk.symm
      rw [if_neg hk]
      exact h.1

theorem mem_of_lookA {α : Type} (m : List (String × α)) (k : String) (a : α)
    (h : lookA m k = some a) : (k, a) ∈ m := by
  induction m with
  | nil => simp [lookA] at h
  | cons p rest ih =>
    obtain ⟨k2, v2⟩ := p
    by_cases h2 : k2 = k
    · subst h2
      simp only [lookA, eq_self_iff_true, if_true, Option.some.injEq] at h
      subst h
      exact List.mem_cons_self _ _
    · simp only [lookA, if_neg h2] at h
      exact List.mem_cons_of_mem _ (ih h)

theorem lookA_nsOutgoing_none (cached : List (String × String))
    (changes : List (String × Action)) (k : String)
    (h : lookA changes k = none) : lookA (nsOutgoing cached changes) k = none := by
  induction changes with
  | nil => simp [nsOutgoing, lookA]
  | cons p rest ih =>
    obtain ⟨k2, a2⟩ := p
    by_cases h2 : k2 = k
    · subst h2
      simp [lookA] at h
    · simp only [lookA, if_neg h2] at h
      cases hs : sendP cached k2 a2 with
      | false => simpa [nsOutgoing, List.filterMap_cons, hs] using ih h
      | true => simpa [nsOutgoing, List.filterMap_cons, hs, lookA, if_neg h2] using ih h

theorem lookA_nsOutgoing (cached : List (String × String))
    (changes : List (String × Action)) (k : String) (act : Action)
    (hd : noDupKeys changes = true) (h : lookA changes k = some act) :
    lookA (nsOutgoing cached changes) k =
      if sendP cached k act then some (outVal act) else none := by
  induction changes with
  | nil => simp [lookA] at h
  | cons p rest ih =>
    obtain ⟨k2, a2⟩ := p
    simp only [noDupKeys, Bool.and_eq_true] at hd
    by_cases h2 : k2 = k
    · subst h2
      simp only [lookA, eq_self_iff_true, if_true, Option.some.injEq] at h
      subst h
      have hrest : lookA rest k2 = none := by
        cases hl : lookA rest k2 with
        | none => rfl
        | some _ => simp [hl] at hd
      have h0 := lookA_nsOutgoing_none cached rest k2 hrest
      cases hs : sendP cached k2 a2 with
      | false => simpa [nsOutgoing, List.filterMap_cons, hs] using h0
      | true => simp [nsOutgoing, List.filterMap_cons, hs, lookA]
    · simp only [lookA, if_neg h2] at h
      cases hs : sendP cached k2 a2 with
      | false => simpa [nsOutgoing, List.filterMap_cons, hs] using ih hd.2 h
      | true => simpa [nsOutgoing, List.filterMap_cons, hs, lookA, if_neg h2] using ih hd.2 h

theorem sendP_false_iff (cached : List (String × String)) (k : String) (act : Action) :
    sendP cached k act = false ↔ lookA cached k = some act.val := by
  unfold sendP
  cases hl : lookA cached k with
  | none => simp
  | some e =>
    simp only [Option.some.injEq]
    constructor
    · intro hb
      exact eq_of_beq (by simpa [bne] using hb)
    · intro he
      subst he
      simp [bne]

theorem nodeStep_lookA (st : List (String × Option String)) (o : Op) (k : String)
    (h : valOk (opVal o) = true) :
    lookA (nodeStep st o) k = if opKey o = k then some (recVal o) else lookA st k := by
  cases o with
  | set k2 v =>
    cases v with
    | goNil => simp [nodeStep, nodeSet, nodeSetWithFailureHandler, nodeDelete, lookA_updA,
        recVal, opVal, opKey, eq_comm]
    | goString s => simp [nodeStep, nodeSet, nodeSetWithFailureHandler, coerceNonNil,
        lookA_updA, recVal, opVal, opKey, eq_comm]
    | goNamedString t s => simp [valOk, opVal] at h
    | goOther m =>
      cases m with
      | none => simp [valOk, opVal] at h
      | some s => simp [nodeStep, nodeSet, nodeSetWithFailureHandler, coerceNonNil,
          lookA_updA, recVal, opVal, opKey, eq_comm]
  | setWithFH k2 v f =>
    cases v with
    | goNil => simp [nodeStep, nodeSetWithFailureHandler, lookA_updA, recVal, opVal, opKey,
        eq_comm]
    | goString s => simp [nodeStep, nodeSetWithFailureHandler, coerceNonNil, lookA_updA,
        recVal, opVal, opKey, eq_comm]
    | goNamedString t s => simp [valOk, opVal] at h
    | goOther m =>
      cases m with
      | none => simp [valOk, opVal] at h
      | some s => simp [nodeStep, nodeSetWithFailureHandler, coerceNonNil, lookA_updA,
          recVal, opVal, opKey, eq_comm]
  | delete k2 => simp [nodeStep, nodeDelete, lookA_updA, recVal, opVal, opKey, eq_comm]

theorem podStep_lookA (st : List (String × Option String)) (o : Op) (k : String)
    (h : valOk (opVal o) = true) :
    lookA (podStep st o) k = if opKey o = k then some (recVal o) else lookA st k := by
  cases o with
  | set k2 v =>
    cases v with
    | goNil => simp [podStep, podSet, podSetWithFailureHandler, podDelete, lookA_updA,
        recVal, opVal, opKey, eq_comm]
    | goString s => simp [podStep, podSet, podSetWithFailureHandler, coerceNonNil,
        lookA_updA, recVal, opVal, opKey, eq_comm]
    | goNamedString t s => simp [valOk, opVal] at h
    | goOther m =>
      cases m with
      | none => simp [valOk, opVal] at h
      | some s => simp [podStep, podSet, podSetWithFailureHandler, coerceNonNil,
          lookA_updA, recVal, opVal, opKey, eq_comm]
  | setWithFH k2 v f =>
    cases v with
    | goNil => simp [podStep, podSetWithFailureHandler, lookA_updA, recVal, opVal, opKey,
        eq_comm]
    | goString s => simp [podStep, podSetWithFailureHandler, coerceNonNil, lookA_updA,
        recVal, opVal, opKey, eq_comm]
    | goNamedString t s => simp [valOk, opVal] at h
    | goOther m =>
      cases m with
      | none => simp [valOk, opVal] at h
      | some s => simp [podStep, podSetWithFailureHandler, coerceNonNil, lookA_updA,
          recVal, opVal, opKey, eq_comm]
  | delete k2 => simp [podStep, podDelete, lookA_updA, recVal, opVal, opKey, eq_comm]

theorem nsStep_lookA (st : List (String × Action)) (o : Op) (k : String)
    (h : valOk (opVal o) = true) :
    lookA (nsStep st o) k = if opKey o = k then some (recAct o) else lookA st k := by
  cases o with
  | set k2 v =>
    cases v with
    | goNil => simp [nsStep, nsSet, nsSetWithFailureHandler, lookA_updA, recAct, opVal,
        opKey, opFailFn, eq_comm]
    | goString s => simp [nsStep, nsSet, nsSetWithFailureHandler, coerceNonNil, lookA_updA,
        recAct, opVal, opKey, opFailFn, eq_comm]
    | goNamedString t s => simp [valOk, opVal] at h
    | goOther m =>
      cases m with
      | none => simp [valOk, opVal] at h
      | some s => simp [nsStep, nsSet, nsSetWithFailureHandler, coerceNonNil, lookA_updA,
          recAct, opVal, opKey, opFailFn, eq_comm]
  | setWithFH k2 v f =>
    cases v with
    | goNil => simp [nsStep, nsSetWithFailureHandler, lookA_updA, recAct, opVal, opKey,
        opFailFn, eq_comm]
    | goString s => simp [nsStep, nsSetWithFailureHandler, coerceNonNil, lookA_updA,
        recAct, opVal, opKey, opFailFn, eq_comm]
    | goNamedString t s => simp [valOk, opVal] at h
    | goOther m =>
      cases m with
      | none => simp [valOk, opVal] at h
      | some s => simp [nsStep, nsSetWithFailureHandler, coerceNonNil, lookA_updA, recAct,
          opVal, opKey, opFailFn, eq_comm]
  | delete k2 => simp [nsStep, nsDelete, lookA_updA, recAct, opVal, opKey, opFailFn, eq_comm]

theorem nodeExec_lookA (ops : List Op) (st : List (String × Option String)) (k : String)
    (h : opsOk ops = true) :
    lookA (nodeExec st ops) k =
      match lastOn ops k with
      | some o => some (recVal o)
      | none => lookA st k := by
  induction ops generalizing st with
  | nil => simp [nodeExec, lastOn]
  | cons o rest ih =>
    simp only [opsOk, List.all_cons, Bool.and_eq_true] at h
    have step := nodeStep_lookA st o k h.1
    have ihr := ih (nodeStep st o) (by simpa [opsOk] using h.2)
    simp only [nodeExec, List.foldl_cons] at ihr ⊢
    rw [ihr]
    cases hl : lastOn rest k with
    | some o2 => simp [lastOn, hl]
    | none =>
      by_cases hk : opKey o = k <;> simp [lastOn, hl, step, hk]

theorem podExec_lookA (ops : List Op) (st : List (String × Option String)) (k : String)
    (h : opsOk ops = true) :
    lookA (podExec st ops) k =
      match lastOn ops k with
      | some o => some (recVal o)
      | none => lookA st k := by
  induction ops generalizing st with
  | nil => simp [podExec, lastOn]
  | cons o rest ih =>
    simp only [opsOk, List.all_cons, Bool.and_eq_true] at h
    have step := podStep_lookA st o k h.1
    have ihr := ih (podStep st o) (by simpa [opsOk] using h.2)
    simp only [podExec, List.foldl_cons] at ihr ⊢
    rw [ihr]
    cases hl : lastOn rest k with
    | some o2 => simp [lastOn, hl]
    | none =>
      by_cases hk : opKey o = k <;> simp [lastOn, hl, step, hk]

theorem nsExec_lookA (ops : List Op) (st : List (String × Action)) (k : String)
    (h : opsOk ops = true) :
    lookA (nsExec st ops) k =
      match lastOn ops k with
      | some o => some (recAct o)
      | none => lookA st k := by
  induction ops generalizing st with
  | nil => simp [nsExec, lastOn]
  | cons o rest ih =>
    simp only [opsOk, List.all_cons, Bool.and_eq_true] at h
    have step := nsStep_lookA st o k h.1
    have ihr := ih (nsStep st o) (by simpa [opsOk] using h.2)
    simp only [nsExec, List.foldl_cons] at ihr ⊢
    rw [ihr]
    cases hl : lastOn rest k with
    | some o2 => simp [lastOn, hl]
    | none =>
      by_cases hk : opKey o = k <;> simp [lastOn, hl, step, hk]

theorem nsStep_noDup (st : List (String × Action)) (o : Op)
    (h : noDupKeys st = true) : noDupKeys (nsStep st o) = true := by
  cases o with
  | set k2 v =>
    cases v with
    | goNil => exact noDupKeys_updA st _ _ h
    | goString s => exact noDupKeys_updA st _ _ h
    | goNamedString t s => simpa [nsStep, nsSet, nsSetWithFailureHandler, coerceNonNil] using h
    | goOther m =>
      cases m with
      | none => simpa [nsStep, nsSet, nsSetWithFailureHandler, coerceNonNil] using h
      | some s => exact noDupKeys_updA st _ _ h
  | setWithFH k2 v f =>
    cases v with
    | goNil => exact noDupKeys_updA st _ _ h
    | goString s => exact noDupKeys_updA st _ _ h
    | goNamedString t s => simpa [nsStep, nsSetWithFailureHandler, coerceNonNil] using h
    | goOther m =>
      cases m with
      | none => simpa [nsStep, nsSetWithFailureHandler, coerceNonNil] using h
      | some s => exact noDupKeys_updA st _ _ h
  | delete k2 => exact noDupKeys_updA st _ _ h

theorem nsExec_noDup (ops : List Op) (st : List (String × Action))
    (h : noDupKeys st = true) : noDupKeys (nsExec st ops) = true := by
  induction ops generalizing st with
  | nil => simpa [nsExec] using h
  | cons o rest ih =>
    simp only [nsExec, List.foldl_cons]
    exact ih (nsStep st o) (nsStep_noDup st o h)

/-! ## Claims -/

/-- C3: in every variant, `Run` called while zero pending changes exist (in
particular on a freshly constructed instance, whose `changes` map is empty)
returns nil, performs zero store calls, and invokes no handler. -/
theorem run_empty_no_store (nodeName namespaceName podName : String) (ns : NsObject)
    (e : Option String) :
    nodeRun nodeName [] e = ⟨[], [], none, []⟩ ∧
    podRun namespaceName podName [] e = ⟨[], [], none, []⟩ ∧
    nsRun ns [] e = ⟨[], [], none, []⟩ :=
  ⟨rfl, rfl, rfl⟩

/-- C4: in every variant, `Set`/`SetWithFailureHandler` with an exact string
records that string unmodified; plain `Set` with a nil value produces
exactly the state `Delete` of the same key produces (hence every subsequent
`Run` behaves identically); and a non-nil, non-string, marshallable value is
recorded as its JSON-serialized string form. -/
theorem set_value_forms (chN chP : List (String × Option String))
    (chS : List (String × Action)) (k s : String) (f : Option Nat) :
    (nodeSetWithFailureHandler chN k (.goString s) f = (.retNil, updA chN k (some s)) ∧
      podSetWithFailureHandler chP k (.goString s) f = (.retNil, updA chP k (some s)) ∧
      nsSetWithFailureHandler chS k (.goString s) f =
        (.retNil, updA chS k ⟨k, s, .goString s, f⟩)) ∧
    (nodeSet chN k .goNil = (.retNil, nodeDelete chN k) ∧
      podSet chP k .goNil = (.retNil, podDelete chP k) ∧
      nsSet chS k .goNil = (.retNil, nsDelete chS k)) ∧
    (nodeSetWithFailureHandler chN k (.goOther (some s)) f = (.retNil, updA chN k (some s)) ∧
      podSetWithFailureHandler chP k (.goOther (some s)) f = (.retNil, updA chP k (some s)) ∧
      nsSetWithFailureHandler chS k (.goOther (some s)) f =
        (.retNil, updA chS k ⟨k, s, .goOther (some s), f⟩)) :=
  ⟨⟨rfl, rfl, rfl⟩, ⟨rfl, rfl, rfl⟩, ⟨rfl, rfl, rfl⟩⟩

/-- C5: in every variant, `Set`/`SetWithFailureHandler` return a non-nil
error exactly when the value is a non-string value whose marshalling fails,
and in that case the pending-changes map is exactly as it was before the
call. -/
theorem set_err_iff_marshal_failure (chN chP : List (String × Option String))
    (chS : List (String × Action)) (k : String) (v : GoVal) (f : Option Nat) :
    ((nodeSetWithFailureHandler chN k v f).1 = .retErr ↔ v = .goOther none) ∧
    ((podSetWithFailureHandler chP k v f).1 = .retErr ↔ v = .goOther none) ∧
    ((nsSetWithFailureHandler chS k v f).1 = .retErr ↔ v = .goOther none) ∧
    nodeSetWithFailureHandler chN k (.goOther none) f = (.retErr, chN) ∧
    podSetWithFailureHandler chP k (.goOther none) f = (.retErr, chP) ∧
    nsSetWithFailureHandler chS k (.goOther none) f = (.retErr, chS) := by
  refine ⟨?_, ?_, ?_, rfl, rfl, rfl⟩ <;>
    cases v with
    | goNil =>
      simp [nodeSetWithFailureHandler, podSetWithFailureHandler, nsSetWithFailureHandler]
    | goString s =>
      simp [nodeSetWithFailureHandler, podSetWithFailureHandler, nsSetWithFailureHandler,
        coerceNonNil]
    | goNamedString t s =>
      simp [nodeSetWithFailureHandler, podSetWithFailureHandler, nsSetWithFailureHandler,
        coerceNonNil]
    | goOther m =>
      cases m <;>
        simp [nodeSetWithFailureHandler, podSetWithFailureHandler, nsSetWithFailureHandler,
          coerceNonNil]

/-- C2: in the namespace variant, a pending change for key `k` is omitted
from the outgoing mapping exactly when the cached namespace annotations
already map `k` to the change's new value; otherwise it is sent — in
particular a key with no previously observed value is always sent. -/
theorem ns_run_omits_unchanged (ns : NsObject) (changes : List (String × Action))
    (k : String) (act : Action) (hd : noDupKeys changes = true)
    (h : lookA changes k = some act) :
    lookA (nsOutgoing ns.annotations changes) k =
      if lookA ns.annotations k = some act.val then none else some (outVal act) := by
  rw [lookA_nsOutgoing ns.annotations changes k act hd h]
  cases hs : sendP ns.annotations k act with
  | false =>
    have hc := (sendP_false_iff ns.annotations k act).mp hs
    simp [hc]
  | true =>
    have hc : ¬lookA ns.annotations k = some act.val := by
      intro hcc
      have h2 := (sendP_false_iff ns.annotations k act).mpr hcc
      rw [hs] at h2
      exact Bool.noConfusion h2
    simp [hc]

/-- Witness for C2: a change whose new value equals the cached one is
omitted from the outgoing mapping. -/
theorem ns_run_omits_unchanged_witness :
    lookA (nsOutgoing (NsObject.mk "n" [("x", "1")]).annotations
      [("x", ⟨"x", "1", .goString "1", none⟩)]) "x" = none := by
  rw [ns_run_omits_unchanged (NsObject.mk "n" [("x", "1")])
    [("x", ⟨"x", "1", .goString "1", none⟩)] "x" ⟨"x", "1", .goString "1", none⟩
    (by decide) (by decide)]
  decide

/-- C6: when the store call made by `Run` fails, the namespace variant
invokes every registered failure handler with arguments
`(na.namespace, act.key, act.origVal)`; the node and pod variants never
invoke any handler, for any pending state and any store outcome. -/
theorem failure_handler_wiring :
    (∀ (ns : NsObject) (changes : List (String × Action)) (e : String),
       nsOutgoing ns.annotations changes ≠ [] →
       (nsRun ns changes (some e)).handlerCalls = nsFailureEvents ns changes) ∧
    (∀ (n : String) (ch : List (String × Option String)) (e : Option String),
       (nodeRun n ch e).handlerCalls = []) ∧
    (∀ (nn pn : String) (ch : List (String × Option String)) (e : Option String),
       (podRun nn pn ch e).handlerCalls = []) := by
  refine ⟨?_, ?_, ?_⟩
  · intro ns changes e hne
    simp [nsRun, hne]
  · intro n ch e
    by_cases h : ch = [] <;> simp [nodeRun, h]
  · intro nn pn ch e
    by_cases h : ch = [] <;> simp [podRun, h]

/-- Witness for C6: a failing namespace `Run` invokes the one registered
handler with the namespace object, the key, and the original value. -/
theorem failure_handler_wiring_witness :
    (nsRun (NsObject.mk "n" []) [("k", ⟨"k", "v", .goString "v", some 7⟩)]
        (some "boom")).handlerCalls =
      [⟨7, NsObject.mk "n" [], "k", .goString "v"⟩] := by
  rw [failure_handler_wiring.1 (NsObject.mk "n" [])
    [("k", ⟨"k", "v", .goString "v", some 7⟩)] "boom" (by decide)]
  decide

/-- C7: in every variant `Run` leaves the pending-changes map exactly as it
was, returns the store's error verbatim whenever it makes the store call,
and a second `Run` on the post state behaves exactly like `Run` on the
original state (the same batch is re-submitted). -/
theorem run_verbatim_err_no_mutation :
    (∀ (n : String) (ch : List (String × Option String)) (e e2 : Option String),
       (nodeRun n ch e).post = ch ∧
       (ch ≠ [] → (nodeRun n ch e).ret = e) ∧
       nodeRun n (nodeRun n ch e).post e2 = nodeRun n ch e2) ∧
    (∀ (nn pn : String) (ch : List (String × Option String)) (e e2 : Option String),
       (podRun nn pn ch e).post = ch ∧
       (ch ≠ [] → (podRun nn pn ch e).ret = e) ∧
       podRun nn pn (podRun nn pn ch e).post e2 = podRun nn pn ch e2) ∧
    (∀ (ns : NsObject) (ch : List (String × Action)) (e e2 : Option String),
       (nsRun ns ch e).post = ch ∧
       (nsOutgoing ns.annotations ch ≠ [] → (nsRun ns ch e).ret = e) ∧
       nsRun ns (nsRun ns ch e).post e2 = nsRun ns ch e2) := by
  refine ⟨?_, ?_, ?_⟩
  · intro n ch e e2
    by_cases h : ch = [] <;> simp [nodeRun, h]
  · intro nn pn ch e e2
    by_cases h : ch = [] <;> simp [podRun, h]
  · intro ns ch e e2
    by_cases h : nsOutgoing ns.annotations ch = [] <;> simp [nsRun, h]

/-- Witness for C7: with a non-empty batch, `Run` returns the store's error
verbatim, in the node and namespace variants. -/
theorem run_verbatim_err_no_mutation_witness :
    (nodeRun "n" [("a", some "1")] (some "x")).ret = some "x" ∧
    (nsRun (NsObject.mk "n" []) [("a", ⟨"a", "1", .goString "1", none⟩)]
      (some "y")).ret = some "y" :=
  ⟨(run_verbatim_err_no_mutation.1 "n" [("a", some "1")] (some "x") none).2.1 (by decide),
   (run_verbatim_err_no_mutation.2.2 (NsObject.mk "n" [])
      [("a", ⟨"a", "1", .goString "1", none⟩)] (some "y") none).2.1 (by decide)⟩

/-- C8: in every variant, `Set`/`SetWithFailureHandler` with a non-nil value
whose `reflect` kind is string but whose dynamic type is not the built-in
`string` (a named string type) panics on the `val.(string)` assertion,
leaving the map unchanged; and under the precondition that every non-nil
value is either exactly a string or marshallable, no `Set` call panics. -/
theorem named_string_panics :
    (∀ (ch : List (String × Option String)) (k t s : String) (f : Option Nat),
       nodeSetWithFailureHandler ch k (.goNamedString t s) f = (.panicked, ch)) ∧
    (∀ (ch : List (String × Option String)) (k t s : String) (f : Option Nat),
       podSetWithFailureHandler ch k (.goNamedString t s) f = (.panicked, ch)) ∧
    (∀ (ch : List (String × Action)) (k t s : String) (f : Option Nat),
       nsSetWithFailureHandler ch k (.goNamedString t s) f = (.panicked, ch)) ∧
    (∀ (ch : List (String × Option String)) (k : String) (v : GoVal) (f : Option Nat),
       valOk v = true → (nodeSetWithFailureHandler ch k v f).1 ≠ .panicked) ∧
    (∀ (ch : List (String × Option String)) (k : String) (v : GoVal) (f : Option Nat),
       valOk v = true → (podSetWithFailureHandler ch k v f).1 ≠ .panicked) ∧
    (∀ (ch : List (String × Action)) (k : String) (v : GoVal) (f : Option Nat),
       valOk v = true → (nsSetWithFailureHandler ch k v f).1 ≠ .panicked) := by
  refine ⟨fun _ _ _ _ _ => rfl, fun _ _ _ _ _ => rfl, fun _ _ _ _ _ => rfl, ?_, ?_, ?_⟩ <;>
    · intro ch k v f h
      cases v with
      | goNil =>
        simp [nodeSetWithFailureHandler, podSetWithFailureHandler, nsSetWithFailureHandler]
      | goString s =>
        simp [nodeSetWithFailureHandler, podSetWithFailureHandler, nsSetWithFailureHandler,
          coerceNonNil]
      | goNamedString t s => simp [valOk] at h
      | goOther m =>
        cases m with
        | none => simp [valOk] at h
        | some s =>
          simp [nodeSetWithFailureHandler, podSetWithFailureHandler,
            nsSetWithFailureHandler, coerceNonNil]

/-- Witness for C8: a named string type panics; an exact string does not. -/
theorem named_string_panics_witness :
    nodeSetWithFailureHandler [] "k" (.goNamedString "MyStr" "v") none = (.panicked, []) ∧
    (nodeSetWithFailureHandler [] "k" (.goString "v") none).1 ≠ .panicked :=
  ⟨named_string_panics.1 [] "k" "MyStr" "v" none,
   named_string_panics.2.2.2.1 [] "k" (.goString "v") none (by decide)⟩

/-- C9: on store failure the namespace variant invokes the failure handlers
of every pending change — including a change whose key the diff omitted
from the outgoing mapping — with the namespace object, the change's key and
its original value. -/
theorem ns_handlers_include_omitted (ns : NsObject) (changes : List (String × Action))
    (e k : String) (act : Action) (f : Nat)
    (hne : nsOutgoing ns.annotations changes ≠ [])
    (h : lookA changes k = some act) (hf : act.failFn = some f)
    (_homit : lookA (nsOutgoing ns.annotations changes) k = none) :
    HandlerEvent.mk f ns act.key act.origVal ∈ (nsRun ns changes (some e)).handlerCalls := by
  have hruns : (nsRun ns changes (some e)).handlerCalls = nsFailureEvents ns changes := by
    simp [nsRun, hne]
  rw [hruns]
  have hmem : (k, act) ∈ changes := mem_of_lookA changes k act h
  simp only [nsFailureEvents, List.mem_filterMap]
  exact ⟨(k, act), hmem, by simp [hf]⟩

/-- Witness for C9: the change on `x` is omitted from the outgoing mapping
(its cached value is unchanged) yet its handler is invoked on failure. -/
theorem ns_handlers_include_omitted_witness :
    HandlerEvent.mk 5 (NsObject.mk "n" [("x", "1")]) "x" (.goString "1") ∈
      (nsRun (NsObject.mk "n" [("x", "1")])
        [("x", ⟨"x", "1", .goString "1", some 5⟩), ("y", ⟨"y", "2", .goString "2", none⟩)]
        (some "boom")).handlerCalls :=
  ns_handlers_include_omitted (NsObject.mk "n" [("x", "1")])
    [("x", ⟨"x", "1", .goString "1", some 5⟩), ("y", ⟨"y", "2", .goString "2", none⟩)]
    "boom" "x" ⟨"x", "1", .goString "1", some 5⟩ 5
    (by decide) (by decide) (by decide) (by decide)

/-- C1 counterexample: a namespace annotator whose cached annotations
already hold `a ↦ "2"` and `b ↦ ""` submits nothing at all for the scenario
`Set("a","1"); Delete("b"); Set("a","2"); Run` — zero store calls and a nil
return, not the claimed single call sending `{a ↦ "2", b ↦ deletion}`. -/
theorem last_op_wins_cex :
    (nsRun (NsObject.mk "ns1" [("a", "2"), ("b", "")])
      (nsExec [] [.set "a" (.goString "1"), .delete "b", .set "a" (.goString "2")])
      (some "storeFailure")).storeCalls = [] ∧
    (nsRun (NsObject.mk "ns1" [("a", "2"), ("b", "")])
      (nsExec [] [.set "a" (.goString "1"), .delete "b", .set "a" (.goString "2")])
      (some "storeFailure")).ret = none := by
  decide

/-- C1 (amended): in every variant the entry recorded for a key is exactly
the record of the last successful `Set`/`Delete` on that key (overwrite
semantics, no history), and in the namespace variant the batch value of a
key, when present, is likewise determined by its last operation (together
with the cached diff); the concrete scenario `Set("a","1"); Delete("b");
Set("a","2"); Run` submits exactly `{a ↦ "2", b ↦ nil}` in a single store
call in the node and pod variants unconditionally, and `{a ↦ "2", b ↦ ""}`
in the namespace variant whenever the cached annotations map neither `a` to
`"2"` nor `b` to `""`. -/
theorem last_op_wins_amended :
    (∀ (ops : List Op) (st : List (String × Option String)) (k : String),
       opsOk ops = true →
       lookA (nodeExec st ops) k =
         match lastOn ops k with
         | some o => some (recVal o)
         | none => lookA st k) ∧
    (∀ (ops : List Op) (st : List (String × Option String)) (k : String),
       opsOk ops = true →
       lookA (podExec st ops) k =
         match lastOn ops k with
         | some o => some (recVal o)
         | none => lookA st k) ∧
    (∀ (ops : List Op) (st : List (String × Action)) (k : String),
       opsOk ops = true →
       lookA (nsExec st ops) k =
         match lastOn ops k with
         | some o => some (recAct o)
         | none => lookA st k) ∧
    (∀ (ops : List Op) (ns : NsObject) (k : String),
       opsOk ops = true →
       lookA (nsOutgoing ns.annotations (nsExec [] ops)) k =
         match lastOn ops k with
         | some o =>
           if sendP ns.annotations k (recAct o) then some (outVal (recAct o)) else none
         | none => none) ∧
    (∀ (n : String) (e : Option String),
       nodeRun n
           (nodeExec [] [.set "a" (.goString "1"), .delete "b", .set "a" (.goString "2")]) e =
         ⟨[.onNode n [("a", some "2"), ("b", none)]], [], e,
           [("a", some "2"), ("b", none)]⟩) ∧
    (∀ (nn pn : String) (e : Option String),
       podRun nn pn
           (podExec [] [.set "a" (.goString "1"), .delete "b", .set "a" (.goString "2")]) e =
         ⟨[.onPod nn pn [("a", some "2"), ("b", none)]], [], e,
           [("a", some "2"), ("b", none)]⟩) ∧
    (∀ (ns : NsObject) (e : Option String),
       lookA ns.annotations "a" ≠ some "2" → lookA ns.annotations "b" ≠ some "" →
       (nsRun ns
           (nsExec [] [.set "a" (.goString "1"), .delete "b", .set "a" (.goString "2")])
           e).storeCalls =
         [.onNamespace ns.name [("a", "2"), ("b", "")]]) := by
  refine ⟨nodeExec_lookA, podExec_lookA, nsExec_lookA, ?_, ?_, ?_, ?_⟩
  · intro ops ns k h
    have hex := nsExec_lookA ops [] k h
    cases hl : lastOn ops k with
    | none =>
      rw [hl] at hex
      exact lookA_nsOutgoing_none ns.annotations (nsExec [] ops) k hex
    | some o =>
      rw [hl] at hex
      exact lookA_nsOutgoing ns.annotations (nsExec [] ops) k (recAct o)
        (nsExec_noDup ops [] rfl) hex
  · intro n e
    have hc : nodeExec [] [.set "a" (.goString "1"), .delete "b", .set "a" (.goString "2")]
        = [("a", some "2"), ("b", none)] := by decide
    rw [hc]
    simp [nodeRun]
  · intro nn pn e
    have hc : podExec [] [.set "a" (.goString "1"), .delete "b", .set "a" (.goString "2")]
        = [("a", some "2"), ("b", none)] := by decide
    rw [hc]
    simp [podRun]
  · intro ns e ha hb
    have hc : nsExec [] [.set "a" (.goString "1"), .delete "b", .set "a" (.goString "2")]
        = [("a", ⟨"a", "2", .goString "2", none⟩), ("b", ⟨"b", "", .goNil, none⟩)] := by
      decide
    have hsa : sendP ns.annotations "a" ⟨"a", "2", .goString "2", none⟩ = true := by
      unfold sendP
      cases hla : lookA ns.annotations "a" with
      | none => rfl
      | some e0 =>
        have hne : e0 ≠ "2" := fun hh => ha (by rw [hla, hh])
        simpa [bne_iff_ne] using hne
    have hsb : sendP ns.annotations "b" ⟨"b", "", .goNil, none⟩ = true := by
      unfold sendP
      cases hlb : lookA ns.annotations "b" with
      | none => rfl
      | some e0 =>
        have hne : e0 ≠ "" := fun hh => hb (by rw [hlb, hh])
        simpa [bne_iff_ne] using hne
    have hout : nsOutgoing ns.annotations
        (nsExec [] [.set "a" (.goString "1"), .delete "b", .set "a" (.goString "2")])
        = [("a", "2"), ("b", "")] := by
      rw [hc]
      simp [nsOutgoing, hsa, hsb, outVal]
    simp [nsRun, hout]

/-- Witness for C1 (amended): the last `Set` on `a` wins in the node
variant, and a namespace annotator with an empty cache submits the scenario
batch in one store call. -/
theorem last_op_wins_amended_witness :
    lookA (nodeExec []
        [.set "a" (.goString "1"), .delete "b", .set "a" (.goString "2")]) "a"
      = some (some "2") ∧
    (nsRun (NsObject.mk "n" [])
      (nsExec [] [.set "a" (.goString "1"), .delete "b", .set "a" (.goString "2")])
      none).storeCalls = [.onNamespace "n" [("a", "2"), ("b", "")]] := by
  constructor
  · rw [last_op_wins_amended.1
      [.set "a" (.goString "1"), .delete "b", .set "a" (.goString "2")] [] "a" (by decide)]
    decide
  · exact last_op_wins_amended.2.2.2.2.2.2 (NsObject.mk "n" []) none (by decide) (by decide)

/-- C10 counterexample: with cached annotations `b ↦ ""`, the key `b` has a
pending deletion yet is absent from the mapping the namespace variant
submits to the store. -/
theorem deletion_marker_cex :
    lookA (nsExec [] [.delete "b", .set "a" (.goString "1")]) "b" =
      some ⟨"b", "", .goNil, none⟩ ∧
    (nsRun (NsObject.mk "n" [("b", "")])
      (nsExec [] [.delete "b", .set "a" (.goString "1")]) (some "err")).storeCalls =
      [.onNamespace "n" [("a", "1")]] := by
  decide

/-- C10 (amended): the node and pod variants submit every deleted key mapped
to nil (never absent); the namespace variant submits a deleted key mapped to
the empty string when the cached annotations do not already map it to `""`,
and omits that key from the submitted mapping when they do. -/
theorem deletion_marker_amended :
    (∀ (n : String) (ch : List (String × Option String)) (e : Option String) (k : String),
       ch ≠ [] → lookA ch k = some none →
       ∃ m, (nodeRun n ch e).storeCalls = [.onNode n m] ∧ lookA m k = some none) ∧
    (∀ (nn pn : String) (ch : List (String × Option String)) (e : Option String)
       (k : String),
       ch ≠ [] → lookA ch k = some none →
       ∃ m, (podRun nn pn ch e).storeCalls = [.onPod nn pn m] ∧ lookA m k = some none) ∧
    (∀ (ns : NsObject) (ch : List (String × Action)) (k : String) (act : Action),
       noDupKeys ch = true → lookA ch k = some act →
       act.origVal = .goNil → act.val = "" →
       lookA (nsOutgoing ns.annotations ch) k =
         if lookA ns.annotations k = some "" then none else some "") := by
  refine ⟨?_, ?_, ?_⟩
  · intro n ch e k hne h
    exact ⟨ch, by simp [nodeRun, hne], h⟩
  · intro nn pn ch e k hne h
    exact ⟨ch, by simp [podRun, hne], h⟩
  · intro ns ch k act hd h ho hv
    rw [lookA_nsOutgoing ns.annotations ch k act hd h]
    cases hs : sendP ns.annotations k act with
    | false =>
      have hc := (sendP_false_iff ns.annotations k act).mp hs
      rw [hv] at hc
      simp [hc]
    | true =>
      have hc : ¬lookA ns.annotations k = some "" := by
        intro hcc
        have h2 := (sendP_false_iff ns.annotations k act).mpr (by rw [hv]; exact hcc)
        rw [hs] at h2
        exact Bool.noConfusion h2
      simp [hc, outVal, ho]

/-- Witness for C10 (amended): the node variant submits a deleted key mapped
to nil; the namespace variant with an empty cache submits it mapped to
`""`. -/
theorem deletion_marker_amended_witness :
    (∃ m, (nodeRun "n" [("d", none)] none).storeCalls = [.onNode "n" m] ∧
       lookA m "d" = some none) ∧
    lookA (nsOutgoing (NsObject.mk "n" []).annotations
      [("d", ⟨"d", "", .goNil, none⟩)]) "d" = some "" := by
  constructor
  · exact deletion_marker_amended.1 "n" [("d", none)] none "d" (by decide) (by decide)
  · rw [deletion_marker_amended.2.2 (NsObject.mk "n" []) [("d", ⟨"d", "", .goNil, none⟩)]
      "d" ⟨"d", "", .goNil, none⟩ (by decide) (by decide) (by decide) (by decide)]
    decide

end Annot
